import Mathlib

/-!
Verification of the Number Duel game core (`number_duel.py`): the
difficulty catalog, the hint engine, the round loop, the score
calculator and the highscore store are embedded shallowly as Lean
functions, and the specification's claims about them are settled as
theorems below the definitions.

Modelling conventions: Python `float` arithmetic on times and on the
closeness threshold is modelled exactly over `ℚ` (the literal `0.02`
denotes the rational 2/100); Python dicts with string keys are
association lists; `random.randint` and the interactive guess source
are external inputs, passed in as parameters; the unbounded `while`
loop runs on explicit fuel and returns `none` when the fuel is spent.
-/

namespace NumberDuel

open scoped List

/-- Values held by the Python dicts the game passes around; a round
result stores only booleans and integers. -/
inductive PyVal where
  | bool (b : Bool)
  | int (n : Int)
  deriving Repr, DecidableEq

/-- A Python dict with string keys, as an association list. -/
abbrev PyDict := List (String × PyVal)

/-- Python truthiness for the values of `PyVal`. -/
def truthy : PyVal → Bool
  | .bool b => b
  | .int n => n ≠ 0

/-- Using a `PyVal` as an integer (Python `bool` is a subtype of
`int`); any value outside these cases would raise, hence `Option`. -/
def asInt : PyVal → Option Int
  | .bool b => some (if b then 1 else 0)
  | .int n => some n

/-- The dict literal `{"win": ..., "attempts": ..., "secret": ...}`
returned by `play_round` on every terminal outcome. -/
def resultDict (win : Bool) (attempts : Nat) (secret : Int) : PyDict :=
  [("win", PyVal.bool win), ("attempts", PyVal.int attempts), ("secret", PyVal.int secret)]

/-- The base-score dict lookup in `compute_score`:
`{"easy": 50, "medium": 120, "hard": 300, "timed": 200}[difficulty_key]`;
a key outside the four raises `KeyError`, hence `none`. -/
def score_base (difficulty_key : String) : Option Int :=
  if difficulty_key = "easy" then some 50
  else if difficulty_key = "medium" then some 120
  else if difficulty_key = "hard" then some 300
  else if difficulty_key = "timed" then some 200
  else none

/-- The function `compute_score(result, difficulty_key)` from the source: base by
mode, `0` on a loss, else `max(10, base + max(0, 50 - attempts * 5))`. -/
def compute_score (result : PyDict) (difficulty_key : String) : Option Int := do
  let base ← score_base difficulty_key
  let winVal ← result.lookup "win"
  if ¬ truthy winVal then
    return 0
  else
    let attemptsVal ← result.lookup "attempts"
    let attempts ← asInt attemptsVal
    return max 10 (base + max 0 (50 - attempts * 5))

/-- The reversed decimal string `str(n)[::-1]` of a natural number, as
a character list; `Nat.toDigits 10` is the decimal rendering `str` uses
(`str(0)` is `"0"`). -/
def revNatStr (n : Nat) : List Char :=
  (Nat.toDigits 10 n).reverse

/-- The reversed decimal string `str(n)[::-1]` of an integer; a
negative number's sign ends up at the end of the reversed string. -/
def revStr (n : Int) : List Char :=
  if n < 0 then revNatStr n.natAbs ++ ['-'] else revNatStr n.toNat

/-- The closeness phrase `basic` computed in `give_hint`: the first
threshold is `diff <= max(1, (secret * 0.02 if secret else 2))`,
compared exactly over `ℚ`; the remaining thresholds are integral. -/
def closeness (secret guess : Int) : String :=
  if ((|secret - guess| : Int) : ℚ) ≤ max 1 (if secret ≠ 0 then (secret : ℚ) * 0.02 else 2) then
    "You\x27re extremely close!"
  else if |secret - guess| ≤ 3 then "Very close."
  else if |secret - guess| ≤ 10 then "Close."
  else "Not that close."

/-- The direction word `hl` computed in `give_hint`:
`"higher" if guess < secret else "lower"`. -/
def direction (secret guess : Int) : String :=
  if guess < secret then "higher" else "lower"

/-- The digit-match count in `give_hint`:
`sum(1 for a, b in zip(secret_s[::-1], guess_s[::-1]) if a == b)`. -/
def digit_matches (secret guess : Int) : Nat :=
  ((revStr secret).zip (revStr guess)).countP (fun p => p.1 == p.2)

/-- The `digit_hint` string of `give_hint`: nonempty only when both
numbers are below 10000 and at least one reversed-aligned position
matches. -/
def digit_hint (secret guess : Int) : String :=
  if secret < 10000 ∧ guess < 10000 then
    if digit_matches secret guess ≠ 0 then
      " (Digits from right matched: " ++ toString (digit_matches secret guess) ++ ")"
    else ""
  else ""

/-- The function `give_hint(secret, guess, attempt, max_attempts)` from the source;
the last two arguments are accepted but never used by the body. -/
def give_hint (secret guess : Int) (attempt : Nat) (max_attempts : Int) : String :=
  if |secret - guess| = 0 then "Correct!"
  else closeness secret guess ++ " Try " ++ direction secret guess ++ "." ++ digit_hint secret guess

/-- Claim C4's closeness rule chain, following the spec's words: the
first threshold is `max(1, secret * 0.02)` with no special case for
`secret = 0` (rendered with the source's phrase strings, so that it can
be compared with `closeness`). -/
def spec_closeness (secret guess : Int) : String :=
  if ((|secret - guess| : Int) : ℚ) ≤ max 1 ((secret : ℚ) * 0.02) then
    "You\x27re extremely close!"
  else if |secret - guess| ≤ 3 then "Very close."
  else if |secret - guess| ≤ 10 then "Close."
  else "Not that close."

/-- A persisted highscore entry, the dict
`{"name": ..., "score": ..., "difficulty": ..., "date": ...}` that
`add_highscore` builds. -/
structure HSEntry where
  name : String
  score : Int
  difficulty : String
  date : String
  deriving Repr, DecidableEq

/-- The state of the `highscores.json` storage artifact: the file may
be missing, hold contents `json.load` raises on, or hold a parsed
entry list (parsing is abstracted to its outcome). -/
inductive Storage where
  | missing
  | corrupt
  | ok (entries : List HSEntry)
  deriving Repr, DecidableEq

/-- The function `load_highscores()` from the source: `[]` when the file does not
exist, `[]` when `json.load` raises (the bare `except` clause catches
everything), else the parsed entries. -/
def load_highscores : Storage → List HSEntry
  | .missing => []
  | .corrupt => []
  | .ok entries => entries

/-- The function `save_highscores(entries)`: the whole file is rewritten with the
given entries. -/
def save_highscores (entries : List HSEntry) : Storage :=
  .ok entries

/-- The comparison `sorted(entries, key=lambda e: e["score"], reverse=True)`
sorts by: `a` may come before `b` when `b`'s score is at most `a`'s.
Python's sort is stable, as is `List.mergeSort`. -/
def scoreGE (a b : HSEntry) : Bool :=
  decide (b.score ≤ a.score)

/-- The function `add_highscore(name, score, difficulty)` from the source: load the
entries, append a fresh entry (`date` is the caller's clock reading),
stable-sort descending by score, truncate to the top 50, save. -/
def add_highscore (st : Storage) (name : String) (score : Int) (difficulty : String)
    (date : String) : Storage :=
  save_highscores
    (((load_highscores st ++ [(⟨name, score, difficulty, date⟩ : HSEntry)]).mergeSort
      scoreGE).take 50)

/-- Folding a whole sequence of `add_highscore` calls over a starting
storage state, one call per entry to insert. -/
def add_all (st : Storage) (adds : List HSEntry) : Storage :=
  adds.foldl (fun t x => add_highscore t x.name x.score x.difficulty x.date) st

lemma scoreGE_trans (a b c : HSEntry) (hab : scoreGE a b) (hbc : scoreGE b c) :
    scoreGE a c := by
  simp only [scoreGE, decide_eq_true_eq] at *
  omega

lemma scoreGE_total (a b : HSEntry) : scoreGE a b || scoreGE b a := by
  simp only [scoreGE]
  by_cases h : b.score ≤ a.score
  · simp [h]
  · simp [le_of_not_le h]

lemma load_add_highscore (st : Storage) (name : String) (score : Int)
    (difficulty date : String) :
    load_highscores (add_highscore st name score difficulty date) =
      ((load_highscores st ++ [(⟨name, score, difficulty, date⟩ : HSEntry)]).mergeSort
        scoreGE).take 50 :=
  rfl

lemma add_highscore_length (st : Storage) (name : String) (score : Int)
    (difficulty date : String) :
    (load_highscores (add_highscore st name score difficulty date)).length ≤ 50 := by
  rw [load_add_highscore]
  rw [List.length_take]
  omega

lemma add_highscore_sorted (st : Storage) (name : String) (score : Int)
    (difficulty date : String) :
    (load_highscores (add_highscore st name score difficulty date)).Pairwise
      (fun a b => b.score ≤ a.score) := by
  rw [load_add_highscore]
  have hs := List.sorted_mergeSort scoreGE_trans scoreGE_total
    (load_highscores st ++ [(⟨name, score, difficulty, date⟩ : HSEntry)])
  have := hs.sublist (List.take_sublist 50 _)
  exact this.imp (fun h => by simpa [scoreGE] using h)

/-- Stability of the stable sort, phrased per score class: the
subsequence of entries having any fixed score is untouched by
`mergeSort scoreGE`. -/
lemma mergeSort_filter_score (l : List HSEntry) (s : Int) :
    (l.mergeSort scoreGE).filter (fun x => x.score == s) =
      l.filter (fun x => x.score == s) := by
  have hpw : (l.filter (fun x => x.score == s)).Pairwise (fun a b => scoreGE a b = true) := by
    apply List.pairwise_of_forall_mem_list
    intro a ha b hb
    have ha' := (List.mem_filter.mp ha).2
    have hb' := (List.mem_filter.mp hb).2
    simp only [beq_iff_eq] at ha' hb'
    simp [scoreGE, ha', hb']
  have hsub : l.filter (fun x => x.score == s) <+ l.mergeSort scoreGE :=
    List.sublist_mergeSort scoreGE_trans scoreGE_total hpw (List.filter_sublist l)
  have hsub2 : l.filter (fun x => x.score == s) <+
      (l.mergeSort scoreGE).filter (fun x => x.score == s) := by
    have := hsub.filter (fun x => x.score == s)
    rwa [List.filter_eq_self.mpr (fun a ha => (List.mem_filter.mp ha).2)] at this
  have hlen : ((l.mergeSort scoreGE).filter (fun x => x.score == s)).length =
      (l.filter (fun x => x.score == s)).length :=
    ((List.mergeSort_perm l scoreGE).filter _).length_eq
  exact (hsub2.eq_of_length hlen.symm).symm

lemma add_highscore_filter_sublist (st : Storage) (x : HSEntry) (s : Int) :
    ((load_highscores (add_highscore st x.name x.score x.difficulty x.date)).filter
        (fun y => y.score == s)) <+
      ((load_highscores st ++ [x]).filter (fun y => y.score == s)) := by
  rw [load_add_highscore]
  have h1 := (List.take_sublist 50
      ((load_highscores st ++ [x]).mergeSort scoreGE)).filter (fun y => y.score == s)
  rwa [mergeSort_filter_score] at h1

lemma add_all_filter_sublist (adds : List HSEntry) (st : Storage) (s : Int) :
    ((load_highscores (add_all st adds)).filter (fun y => y.score == s)) <+
      ((load_highscores st ++ adds).filter (fun y => y.score == s)) := by
  induction adds generalizing st with
  | nil => simp [add_all]
  | cons x xs ih =>
    have step := add_highscore_filter_sublist st x s
    have tail := ih (add_highscore st x.name x.score x.difficulty x.date)
    calc ((load_highscores (add_all st (x :: xs))).filter (fun y => y.score == s))
        <+ ((load_highscores (add_highscore st x.name x.score x.difficulty x.date) ++ xs).filter
            (fun y => y.score == s)) := tail
      _ <+ ((load_highscores st ++ (x :: xs)).filter (fun y => y.score == s)) := by
          have h2 := step.append_right (xs.filter (fun y => y.score == s))
          rw [← List.filter_append, ← List.filter_append] at h2
          rwa [List.append_assoc, List.singleton_append] at h2

lemma add_all_length_sorted (adds : List HSEntry) (st : Storage) (hne : adds ≠ []) :
    (load_highscores (add_all st adds)).length ≤ 50 ∧
      (load_highscores (add_all st adds)).Pairwise (fun a b => b.score ≤ a.score) := by
  induction adds generalizing st with
  | nil => exact absurd rfl hne
  | cons x xs ih =>
    cases xs with
    | nil =>
      exact ⟨add_highscore_length st x.name x.score x.difficulty x.date,
        add_highscore_sorted st x.name x.score x.difficulty x.date⟩
    | cons y ys =>
      exact ih (add_highscore st x.name x.score x.difficulty x.date) (by simp)

/-- C2: after any nonempty sequence of `add_highscore` calls starting
from any storage state, the persisted leaderboard holds at most 50
entries, is sorted descending by score, and within each score class the
surviving entries appear in insertion order (stable ties). -/
theorem add_highscore_c2 (st : Storage) (e : HSEntry) (rest : List HSEntry) :
    (load_highscores (add_all st (e :: rest))).length ≤ 50 ∧
    (load_highscores (add_all st (e :: rest))).Pairwise (fun a b => b.score ≤ a.score) ∧
    ∀ s : Int, ((load_highscores (add_all st (e :: rest))).filter (fun y => y.score == s)) <+
      ((load_highscores st ++ (e :: rest)).filter (fun y => y.score == s)) := by
  obtain ⟨h1, h2⟩ := add_all_length_sorted (e :: rest) st (by simp)
  exact ⟨h1, h2, fun s => add_all_filter_sublist (e :: rest) st s⟩

/-- C8: `load_highscores` is total on every storage state (nothing
escapes to the caller); a missing or unparsable file loads as the empty
leaderboard, and otherwise the parsed entries are returned as they are. -/
theorem load_highscores_c8 (st : Storage) :
    (load_highscores Storage.missing = [] ∧ load_highscores Storage.corrupt = []) ∧
    (load_highscores st = [] ∨ ∃ l, st = Storage.ok l ∧ load_highscores st = l) := by
  refine ⟨⟨rfl, rfl⟩, ?_⟩
  cases st with
  | missing => exact Or.inl rfl
  | corrupt => exact Or.inl rfl
  | ok l => exact Or.inr ⟨l, rfl, rfl⟩

/-- In a list sorted descending by score, an element that at most `n`
entries (weakly) outscore sits within the first `n` positions. -/
lemma mem_take_of_sorted (S : List HSEntry) (x : HSEntry) :
    ∀ n : Nat, S.Pairwise (fun a b => b.score ≤ a.score) → x ∈ S →
      S.countP (fun y => decide (x.score ≤ y.score)) ≤ n → x ∈ S.take n := by
  induction S with
  | nil =>
    intro n _ hx
    cases hx
  | cons a S ih =>
    intro n hs hx hc
    rw [List.countP_cons] at hc
    rcases List.mem_cons.mp hx with rfl | hxS
    · simp only [decide_eq_true_eq, le_refl, if_true] at hc
      obtain ⟨m, rfl⟩ : ∃ m, n = m + 1 := ⟨n - 1, by omega⟩
      rw [List.take_succ_cons]
      exact List.mem_cons_self _ _
    · have hhead : x.score ≤ a.score := (List.pairwise_cons.mp hs).1 x hxS
      simp only [decide_eq_true_eq, hhead, if_true] at hc
      obtain ⟨m, rfl⟩ : ∃ m, n = m + 1 := ⟨n - 1, by omega⟩
      rw [List.take_succ_cons]
      exact List.mem_cons_of_mem _ (ih m (List.pairwise_cons.mp hs).2 hxS (by omega))

/-- C9: `add_highscore` followed by `load_highscores` yields a
leaderboard containing the new entry, provided fewer than 50 of the
previously persisted entries (weakly) outscore it — i.e. unless it is
evicted by the 50-entry cap for scoring too low. -/
theorem add_highscore_c9 (st : Storage) (name : String) (score : Int)
    (difficulty date : String)
    (h : (load_highscores st).countP (fun x => decide (score ≤ x.score)) < 50) :
    (⟨name, score, difficulty, date⟩ : HSEntry) ∈
      load_highscores (add_highscore st name score difficulty date) := by
  rw [load_add_highscore]
  apply mem_take_of_sorted
  · exact (List.sorted_mergeSort scoreGE_trans scoreGE_total _).imp
      (fun hab => by simpa [scoreGE] using hab)
  · rw [List.mem_mergeSort]
    exact List.mem_append_right _ (List.mem_cons_self _ _)
  · rw [((List.mergeSort_perm _ scoreGE).countP_eq _), List.countP_append]
    have h1 : List.countP
        (fun y => decide ((⟨name, score, difficulty, date⟩ : HSEntry).score ≤ y.score))
        [(⟨name, score, difficulty, date⟩ : HSEntry)] = 1 := by simp
    have h2 : List.countP
        (fun y => decide ((⟨name, score, difficulty, date⟩ : HSEntry).score ≤ y.score))
        (load_highscores st) < 50 := h
    omega

/-- Witness for C9: adding to an empty (missing) store keeps the new
entry. -/
theorem add_highscore_c9_witness :
    (⟨"Player1", 85, "easy", "2024-01-01T00:00:00Z"⟩ : HSEntry) ∈
      load_highscores
        (add_highscore Storage.missing "Player1" 85 "easy" "2024-01-01T00:00:00Z") :=
  add_highscore_c9 Storage.missing "Player1" 85 "easy" "2024-01-01T00:00:00Z" (by decide)

/-- One difficulty profile from the `DIFFICULTIES` table: inclusive
range bounds, optional attempt budget, optional time limit in
seconds. -/
structure Cfg where
  min : Int
  max : Int
  attempts : Option Int
  time_limit : Option ℚ
  deriving Repr, DecidableEq

/-- The `DIFFICULTIES` table; indexing with an unknown key raises
`KeyError`, hence `none`. -/
def DIFFICULTIES (key : String) : Option Cfg :=
  if key = "easy" then some ⟨1, 50, some 10, none⟩
  else if key = "medium" then some ⟨1, 200, some 8, none⟩
  else if key = "hard" then some ⟨1, 1000, some 10, none⟩
  else if key = "timed" then some ⟨1, 500, none, some 20⟩
  else none

/-- The observable outputs `play_round` prints inside its loop, in
emission order: the timer line (carrying `int(remain)`), the two loss
banners, the hint line, the attempts-left line, the three-guess tip
(carrying the revealed half and the original range) and the win
banner. -/
inductive Event where
  | timerShow (remain : Int)
  | timeUp
  | noAttempts
  | hint (text : String)
  | attemptsLeft (n : Int)
  | tip (half : String) (lo hi : Int)
  | correct
  deriving Repr, DecidableEq

/-- Events that record one accepted guess: a wrong guess prints a hint
line, the winning guess prints the win banner. -/
def isGuessEv : Event → Bool
  | .hint _ => true
  | .correct => true
  | _ => false

/-- Recognizer for the three-guess tip event. -/
def isTipEv : Event → Bool
  | .tip _ _ _ => true
  | _ => false

/-- Outcome of one pass through the `while True` body: either a
`return` carrying the events printed during the pass and the result
dict, or fall-through to the next iteration with the updated attempt
counter and guess history. -/
inductive StepRes where
  | done (evs : List Event) (result : PyDict)
  | cont (evs : List Event) (attempts_left : Option Int) (guesses : List Int)
  deriving Repr, DecidableEq

/-- The test `attempts_left is not None and attempts_left <= 0`. -/
def attemptsExhausted : Option Int → Bool
  | some n => decide (n ≤ 0)
  | none => false

/-- The argument `cfg["attempts"] or 999` passed to `give_hint`:
Python `or` falls back on `None` and on `0`. -/
def attemptsOr999 : Option Int → Int
  | some n => if n ≠ 0 then n else 999
  | none => 999

/-- The part of the loop body after the time check: attempts check,
guess intake, win test, hint, attempt decrement, three-guess tip.
`evs0` are the events already printed this pass (the timer line, when
timed); `guessAt i` is the `i`-th validated guess the player enters. -/
def round_step_rest (cfg : Cfg) (secret : Int) (guessAt : Nat → Int)
    (attempts_left : Option Int) (guesses : List Int) (evs0 : List Event) : StepRes :=
  if attemptsExhausted attempts_left then
    StepRes.done (evs0 ++ [Event.noAttempts]) (resultDict false guesses.length secret)
  else
    let guess := guessAt guesses.length
    let guesses' := guesses ++ [guess]
    if guess = secret then
      StepRes.done (evs0 ++ [Event.correct]) (resultDict true guesses'.length secret)
    else
      let mh := give_hint secret guess guesses'.length (attemptsOr999 cfg.attempts)
      let attempts_left' := attempts_left.map (fun n => n - 1)
      let evs1 := evs0 ++ [Event.hint mh] ++
        (match attempts_left with
         | some n => [Event.attemptsLeft (n - 1)]
         | none => [])
      let evs2 := evs1 ++
        (if guesses'.length = 3 then
          [Event.tip (if secret ≤ (cfg.min + cfg.max).fdiv 2 then "lower" else "upper")
            cfg.min cfg.max]
         else [])
      StepRes.cont evs2 attempts_left' guesses'

/-- One pass through the body of the `while True` loop of `play_round`:
the time check runs first, before any guess is requested. `clock i` is
the value of `time.time() - start_time` observed at the top of the
`i`-th pass (one reading per pass, indexed by the history length);
truthiness of `cfg["time_limit"]` means present and nonzero. -/
def round_step (cfg : Cfg) (secret : Int) (clock : Nat → ℚ) (guessAt : Nat → Int)
    (attempts_left : Option Int) (guesses : List Int) : StepRes :=
  match cfg.time_limit with
  | some t =>
    if t ≠ 0 then
      let elapsed := clock guesses.length
      if elapsed > t then
        StepRes.done [Event.timeUp] (resultDict false guesses.length secret)
      else
        round_step_rest cfg secret guessAt attempts_left guesses
          [Event.timerShow ⌊max 0 (t - elapsed)⌋]
    else
      round_step_rest cfg secret guessAt attempts_left guesses []
  | none => round_step_rest cfg secret guessAt attempts_left guesses []

/-- The `while True` loop of `play_round`, driven by fuel; `none` in
the second component means the fuel ran out before the round reached a
terminal outcome. -/
def round_loop (cfg : Cfg) (secret : Int) (clock : Nat → ℚ) (guessAt : Nat → Int) :
    Option Int → List Int → Nat → List Event × Option PyDict
  | _, _, 0 => ([], none)
  | attempts_left, guesses, fuel + 1 =>
    match round_step cfg secret clock guessAt attempts_left guesses with
    | .done evs r => (evs, some r)
    | .cont evs attempts_left' guesses' =>
      let rest := round_loop cfg secret clock guessAt attempts_left' guesses' fuel
      (evs ++ rest.1, rest.2)

/-- The function `play_round(difficulty_key, player_name)`: look up the profile
(raising on an unknown key), then run the loop from an empty history
with the mode's attempt budget. `secret` is the value
`random.randint(lo, hi)` returned; randomness and the interactive
player are external inputs. -/
def play_round (difficulty_key : String) (secret : Int) (clock : Nat → ℚ)
    (guessAt : Nat → Int) (fuel : Nat) : Option (List Event × Option PyDict) :=
  (DIFFICULTIES difficulty_key).map fun cfg =>
    round_loop cfg secret clock guessAt cfg.attempts [] fuel

/-- The round-completion fragment of `main`: compute the score, then
save a highscore entry only when the score is positive (`if score > 0`);
`date` is the timestamp `add_highscore` would attach. -/
def finish_round (st : Storage) (player difficulty : String) (result : PyDict)
    (date : String) : Option (Int × Storage) := do
  let score ← compute_score result difficulty
  return (score, if 0 < score then add_highscore st player score difficulty date else st)

/-- Case analysis of one loop pass: it either returns a loss dict
having recorded no guess, returns a win dict having recorded exactly
the winning guess, or records exactly one wrong guess and falls
through; tip events can only arise in the fall-through case, exactly
when the recorded history reaches length 3, and always carry the
original range and its midpoint half. -/
lemma round_step_rest_spec (cfg : Cfg) (secret : Int) (guessAt : Nat → Int)
    (al : Option Int) (gs : List Int) (evs0 : List Event)
    (h1 : evs0.countP isGuessEv = 0) (h2 : evs0.countP isTipEv = 0)
    (h3 : Event.correct ∉ evs0) :
    (∃ evs, round_step_rest cfg secret guessAt al gs evs0 = StepRes.done evs
        (resultDict false gs.length secret) ∧
      evs.countP isGuessEv = 0 ∧ evs.countP isTipEv = 0 ∧ Event.correct ∉ evs) ∨
    (∃ evs, round_step_rest cfg secret guessAt al gs evs0 = StepRes.done evs
        (resultDict true (gs.length + 1) secret) ∧
      guessAt gs.length = secret ∧
      evs.countP isGuessEv = 1 ∧ evs.countP isTipEv = 0 ∧ Event.correct ∈ evs) ∨
    (∃ evs al', round_step_rest cfg secret guessAt al gs evs0 =
        StepRes.cont evs al' (gs ++ [guessAt gs.length]) ∧
      guessAt gs.length ≠ secret ∧
      evs.countP isGuessEv = 1 ∧ Event.correct ∉ evs ∧
      evs.countP isTipEv = (if gs.length + 1 = 3 then 1 else 0) ∧
      (∀ half lo hi, Event.tip half lo hi ∈ evs →
        gs.length + 1 = 3 ∧ lo = cfg.min ∧ hi = cfg.max ∧
        half = (if secret ≤ (cfg.min + cfg.max).fdiv 2 then "lower" else "upper"))) := by
  cases hex : attemptsExhausted al with
  | true =>
    left
    refine ⟨evs0 ++ [Event.noAttempts], by simp [round_step_rest, hex], ?_, ?_, ?_⟩
    · simp [List.countP_append, List.countP_cons, isGuessEv, h1]
    · simp [List.countP_append, List.countP_cons, isTipEv, h2]
    · simp [List.mem_append, h3]
  | false =>
    by_cases hwin : guessAt gs.length = secret
    · right; left
      refine ⟨evs0 ++ [Event.correct], ?_, hwin, ?_, ?_, ?_⟩
      · simp [round_step_rest, hex, hwin]
      · simp [List.countP_append, List.countP_cons, isGuessEv, h1]
      · simp [List.countP_append, List.countP_cons, isTipEv, h2]
      · simp [List.mem_append]
    · right; right
      refine ⟨evs0 ++ [Event.hint (give_hint secret (guessAt gs.length)
            (gs ++ [guessAt gs.length]).length (attemptsOr999 cfg.attempts))] ++
          (match al with
           | some n => [Event.attemptsLeft (n - 1)]
           | none => []) ++
          (if (gs ++ [guessAt gs.length]).length = 3 then
            [Event.tip (if secret ≤ (cfg.min + cfg.max).fdiv 2 then "lower" else "upper")
              cfg.min cfg.max]
           else []),
          al.map (fun n => n - 1), ?_, hwin, ?_, ?_, ?_, ?_⟩
      · cases al <;> simp [round_step_rest, hex, hwin]
      · cases al <;>
          by_cases hlen : (gs ++ [guessAt gs.length]).length = 3 <;>
          simp [List.countP_append, List.countP_cons, isGuessEv, h1, hlen]
      · cases al <;>
          simp [List.mem_append, h3]
      · cases al <;>
          by_cases hlen : gs.length + 1 = 3 <;>
          simp [List.countP_append, List.countP_cons, isTipEv, h2, List.length_append, hlen]
      · intro half lo hi hmem
        have h2' := List.countP_eq_zero.mp h2
        have hnotip : Event.tip half lo hi ∉ evs0 := fun hm => by
          have := h2' _ hm
          simp [isTipEv] at this
        rcases List.mem_append.mp hmem with hmem1 | hmem2
        · rcases List.mem_append.mp hmem1 with hmem3 | hmem4
          · rcases List.mem_append.mp hmem3 with hmem5 | hmem6
            · exact absurd hmem5 hnotip
            · simp at hmem6
          · cases al <;> simp at hmem4
        · by_cases hlen : (gs ++ [guessAt gs.length]).length = 3
          · rw [if_pos hlen] at hmem2
            simp only [List.mem_singleton, Event.tip.injEq] at hmem2
            obtain ⟨hh, hl, hr⟩ := hmem2
            refine ⟨by simpa [List.length_append] using hlen, hl, hr, hh⟩
          · rw [if_neg hlen] at hmem2
            simp at hmem2

/-- The same case analysis for the full pass including the time check:
either an immediate time loss, or the timer line (when timed) followed
by one of the three outcomes above. -/
lemma round_step_spec (cfg : Cfg) (secret : Int) (clock : Nat → ℚ) (guessAt : Nat → Int)
    (al : Option Int) (gs : List Int) :
    (∃ evs, round_step cfg secret clock guessAt al gs = StepRes.done evs
        (resultDict false gs.length secret) ∧
      evs.countP isGuessEv = 0 ∧ evs.countP isTipEv = 0 ∧ Event.correct ∉ evs) ∨
    (∃ evs, round_step cfg secret clock guessAt al gs = StepRes.done evs
        (resultDict true (gs.length + 1) secret) ∧
      guessAt gs.length = secret ∧
      evs.countP isGuessEv = 1 ∧ evs.countP isTipEv = 0 ∧ Event.correct ∈ evs) ∨
    (∃ evs al', round_step cfg secret clock guessAt al gs =
        StepRes.cont evs al' (gs ++ [guessAt gs.length]) ∧
      guessAt gs.length ≠ secret ∧
      evs.countP isGuessEv = 1 ∧ Event.correct ∉ evs ∧
      evs.countP isTipEv = (if gs.length + 1 = 3 then 1 else 0) ∧
      (∀ half lo hi, Event.tip half lo hi ∈ evs →
        gs.length + 1 = 3 ∧ lo = cfg.min ∧ hi = cfg.max ∧
        half = (if secret ≤ (cfg.min + cfg.max).fdiv 2 then "lower" else "upper"))) := by
  cases htl : cfg.time_limit with
  | none =>
    have := round_step_rest_spec cfg secret guessAt al gs [] rfl rfl (by simp)
    simpa [round_step, htl] using this
  | some t =>
    by_cases ht0 : t = 0
    · have := round_step_rest_spec cfg secret guessAt al gs [] rfl rfl (by simp)
      simpa [round_step, htl, ht0] using this
    · by_cases hgt : clock gs.length > t
      · left
        refine ⟨[Event.timeUp], ?_, rfl, rfl, by simp⟩
        simp [round_step, htl, ht0, hgt]
      · have := round_step_rest_spec cfg secret guessAt al gs
          [Event.timerShow ⌊max 0 (t - clock gs.length)⌋]
          (by simp [isGuessEv]) (by simp [isTipEv]) (by simp)
        simpa [round_step, htl, ht0, hgt] using this

/-- Loop invariant for the result dict: a terminal outcome's dict is
exactly `resultDict w n secret`, where `n` is the starting history
length plus the number of guess events in the emitted trace and `w`
tracks the presence of the win banner. -/
lemma round_loop_result (cfg : Cfg) (secret : Int) (clock : Nat → ℚ) (guessAt : Nat → Int) :
    ∀ (fuel : Nat) (al : Option Int) (gs : List Int) (evs : List Event) (r : PyDict),
      round_loop cfg secret clock guessAt al gs fuel = (evs, some r) →
      ∃ w : Bool, r = resultDict w (gs.length + evs.countP isGuessEv) secret ∧
        (w = true ↔ Event.correct ∈ evs) := by
  intro fuel
  induction fuel with
  | zero =>
    intro al gs evs r h
    simp [round_loop] at h
  | succ fuel ih =>
    intro al gs evs r h
    rw [round_loop] at h
    rcases round_step_spec cfg secret clock guessAt al gs with
      ⟨evs1, hstep, hg, -, hcor⟩ | ⟨evs1, hstep, -, hg, -, hcor⟩ |
      ⟨evs1, al', hstep, -, hg, hcor, -, -⟩
    · rw [hstep] at h
      injection h with h1 h2
      injection h2 with h2
      subst h1
      subst h2
      exact ⟨false, by simp [hg], by simp [hcor]⟩
    · rw [hstep] at h
      injection h with h1 h2
      injection h2 with h2
      subst h1
      subst h2
      exact ⟨true, by simp [hg], by simp [hcor]⟩
    · rw [hstep] at h
      dsimp only at h
      injection h with h1 h2
      obtain ⟨w, hr, hiff⟩ := ih al' (gs ++ [guessAt gs.length])
        (round_loop cfg secret clock guessAt al' (gs ++ [guessAt gs.length]) fuel).1 r
        (by rw [← h2])
      subst h1
      refine ⟨w, ?_, ?_⟩
      · have hcnt : gs.length + List.countP isGuessEv
            (evs1 ++ (round_loop cfg secret clock guessAt al'
              (gs ++ [guessAt gs.length]) fuel).1) =
            (gs ++ [guessAt gs.length]).length + List.countP isGuessEv
              (round_loop cfg secret clock guessAt al' (gs ++ [guessAt gs.length]) fuel).1 := by
          simp [List.countP_append, hg, List.length_append]
          omega
        rw [hcnt]
        exact hr
      · rw [hiff]
        simp [List.mem_append, hcor]

/-- Loop invariant for the three-guess tip: the trace holds at most one
tip; it holds exactly one iff the history reaches length 3 on a wrong
guess — i.e. the third overall guess (`guessAt 2`) is accepted and is
not the secret; and every tip carries the original range and its
midpoint half. -/
lemma round_loop_tips (cfg : Cfg) (secret : Int) (clock : Nat → ℚ) (guessAt : Nat → Int) :
    ∀ (fuel : Nat) (al : Option Int) (gs : List Int),
      (round_loop cfg secret clock guessAt al gs fuel).1.countP isTipEv ≤ 1 ∧
      ((round_loop cfg secret clock guessAt al gs fuel).1.countP isTipEv = 1 ↔
        gs.length < 3 ∧
        3 ≤ gs.length + (round_loop cfg secret clock guessAt al gs fuel).1.countP isGuessEv ∧
        guessAt 2 ≠ secret) ∧
      (∀ half lo hi, Event.tip half lo hi ∈ (round_loop cfg secret clock guessAt al gs fuel).1 →
        lo = cfg.min ∧ hi = cfg.max ∧
        half = (if secret ≤ (cfg.min + cfg.max).fdiv 2 then "lower" else "upper")) := by
  intro fuel
  induction fuel with
  | zero =>
    intro al gs
    refine ⟨by simp [round_loop], ?_, by simp [round_loop]⟩
    simp only [round_loop, List.countP_nil]
    constructor
    · intro h
      exact absurd h (by omega)
    · rintro ⟨ha, hb, -⟩
      omega
  | succ fuel ih =>
    intro al gs
    rcases round_step_spec cfg secret clock guessAt al gs with
      ⟨evs1, hstep, hg, htip, -⟩ | ⟨evs1, hstep, hwin, hg, htip, -⟩ |
      ⟨evs1, al', hstep, hne, hg, -, htip, htipmem⟩
    · rw [round_loop, hstep]
      dsimp only
      refine ⟨by omega, ⟨fun hcon => absurd hcon (by omega), ?_⟩, ?_⟩
      · rintro ⟨ha, hb, -⟩
        rw [hg] at hb
        omega
      · intro half lo hi hmem
        have := List.countP_eq_zero.mp htip _ hmem
        simp [isTipEv] at this
    · rw [round_loop, hstep]
      dsimp only
      refine ⟨by omega, ⟨fun hcon => absurd hcon (by omega), ?_⟩, ?_⟩
      · rintro ⟨ha, hb, hc⟩
        rw [hg] at hb
        have h2 : gs.length = 2 := by omega
        rw [h2] at hwin
        exact absurd hwin hc
      · intro half lo hi hmem
        have := List.countP_eq_zero.mp htip _ hmem
        simp [isTipEv] at this
    · rw [round_loop, hstep]
      dsimp only
      obtain ⟨ihb, ihiff, ihmem⟩ := ih al' (gs ++ [guessAt gs.length])
      rw [List.countP_append, List.countP_append]
      by_cases hlen : gs.length + 1 = 3
      · have hrt0 : (round_loop cfg secret clock guessAt al'
            (gs ++ [guessAt gs.length]) fuel).1.countP isTipEv = 0 := by
          rcases Nat.le_one_iff_eq_zero_or_eq_one.mp ihb with h0 | h1
          · exact h0
          · obtain ⟨hlt, -, -⟩ := ihiff.mp h1
            simp only [List.length_append, List.length_cons, List.length_nil] at hlt
            omega
        rw [htip, if_pos hlen, hrt0, hg]
        refine ⟨by omega, ?_, ?_⟩
        · have h2 : gs.length = 2 := by omega
          have hne2 : guessAt 2 ≠ secret := by
            rw [← h2]
            exact hne
          constructor
          · intro _
            exact ⟨by omega, by omega, hne2⟩
          · intro _
            omega
        · intro half lo hi hmem
          rcases List.mem_append.mp hmem with hm1 | hm2
          · obtain ⟨-, hl, hr, hh⟩ := htipmem half lo hi hm1
            exact ⟨hl, hr, hh⟩
          · exact ihmem half lo hi hm2
      · rw [htip, if_neg hlen, hg]
        simp only [List.length_append, List.length_cons, List.length_nil] at ihiff
        refine ⟨by omega, ?_, ?_⟩
        · constructor
          · intro h1t
            obtain ⟨ha, hb, hc⟩ := ihiff.mp (by omega)
            exact ⟨by omega, by omega, hc⟩
          · rintro ⟨ha, hb, hc⟩
            have hres := ihiff.mpr ⟨by omega, by omega, hc⟩
            omega
        · intro half lo hi hmem
          rcases List.mem_append.mp hmem with hm1 | hm2
          · obtain ⟨-, hl, hr, hh⟩ := htipmem half lo hi hm1
            exact ⟨hl, hr, hh⟩
          · exact ihmem half lo hi hm2

/-- A concrete timed round whose very first time check fails: the clock
already reads 21 seconds against the 20-second limit, so the loop
returns the time-loss dict before requesting any guess. -/
lemma timeout_run :
    play_round "timed" 5 (fun _ => (21 : ℚ)) (fun _ => 1) 1 =
      some ([Event.timeUp], some (resultDict false 0 5)) := by
  have hd : DIFFICULTIES "timed" = some (⟨1, 500, none, some 20⟩ : Cfg) := rfl
  have hs : round_step (⟨1, 500, none, some 20⟩ : Cfg) 5 (fun _ => (21 : ℚ)) (fun _ => 1)
      none [] = StepRes.done [Event.timeUp] (resultDict false 0 5) := by
    rw [round_step]
    norm_num
  rw [play_round, hd, Option.map_some', round_loop, hs]

/-- Once the timer line has been printed, the rest of the pass can no
longer produce the bare time-up trace: every outcome's event list
starts with the timer line (or is a fall-through). -/
lemma round_step_rest_ne (cfg : Cfg) (secret : Int) (guessAt : Nat → Int)
    (al : Option Int) (gs : List Int) (m : Int) (r : PyDict) :
    round_step_rest cfg secret guessAt al gs [Event.timerShow m] ≠
      StepRes.done [Event.timeUp] r := by
  unfold round_step_rest
  by_cases hex : attemptsExhausted al = true
  · simp [hex]
  · by_cases hwin : guessAt gs.length = secret
    · simp [hex, hwin]
    · simp [hex, hwin]

/-- C3: a timed round checks elapsed time at the top of each pass,
before requesting a guess, and that pass returns the time loss exactly
when the elapsed reading strictly exceeds the limit; and in the spec's
scenario — the timed profile with the clock at 21 before any guess —
the round returns won = false with 0 attempts, the score is 0, and the
leaderboard is left untouched. -/
theorem timed_round_c3 (cfg : Cfg) (secret : Int) (clock : Nat → ℚ) (guessAt : Nat → Int)
    (t : ℚ) (al : Option Int) (gs : List Int) (st : Storage) (player date : String)
    (fuel : Nat) (ht : cfg.time_limit = some t) (ht0 : t ≠ 0) :
    (round_step cfg secret clock guessAt al gs =
        StepRes.done [Event.timeUp] (resultDict false gs.length secret) ↔
      clock gs.length > t) ∧
    (clock 0 = 21 →
      play_round "timed" secret clock guessAt (fuel + 1) =
        some ([Event.timeUp], some (resultDict false 0 secret)) ∧
      compute_score (resultDict false 0 secret) "timed" = some 0 ∧
      finish_round st player "timed" (resultDict false 0 secret) date = some (0, st)) := by
  constructor
  · constructor
    · intro heq
      by_contra hnot
      rw [not_lt] at hnot
      rw [round_step, ht] at heq
      dsimp only at heq
      rw [if_pos ht0, if_neg (not_lt.mpr hnot)] at heq
      exact round_step_rest_ne cfg secret guessAt al gs _ _ heq
    · intro hgt
      rw [round_step, ht]
      dsimp only
      rw [if_pos ht0, if_pos hgt]
  · intro hclock
    refine ⟨?_, rfl, rfl⟩
    have hd : DIFFICULTIES "timed" = some (⟨1, 500, none, some 20⟩ : Cfg) := rfl
    have hs : round_step (⟨1, 500, none, some 20⟩ : Cfg) secret clock guessAt
        none [] = StepRes.done [Event.timeUp] (resultDict false 0 secret) := by
      rw [round_step]
      norm_num [hclock]
    rw [play_round, hd, Option.map_some', round_loop, hs]

/-- Witness for C3 at the spec scenario itself: the timed profile with
a clock reading of 21 before the first guess. -/
theorem timed_round_c3_witness :
    play_round "timed" 5 (fun _ => (21 : ℚ)) (fun _ => 1) 1 =
      some ([Event.timeUp], some (resultDict false 0 5)) ∧
    compute_score (resultDict false 0 5) "timed" = some 0 ∧
    finish_round Storage.missing "Player1" "timed" (resultDict false 0 5) "d" =
      some (0, Storage.missing) :=
  (timed_round_c3 ⟨1, 500, none, some 20⟩ 5 (fun _ => 21) (fun _ => 1) 20 none []
    Storage.missing "Player1" "d" 0 rfl (by norm_num)).2 rfl

/-- Counterexample to C6 as stated: the terminal result dict carries
only the keys `win`, `attempts` and `secret`; there is no `guesses`
field holding the guess history. -/
theorem round_result_c6_counterexample :
    play_round "timed" 5 (fun _ => (21 : ℚ)) (fun _ => 1) 1 =
      some ([Event.timeUp], some (resultDict false 0 5)) ∧
    (resultDict false 0 5).lookup "guesses" = none :=
  ⟨timeout_run, rfl⟩

/-- C6 amended: every terminal outcome returns the dict
`{"win": w, "attempts": n, "secret": secret}` where `n` is exactly the
number of guesses recorded in the trace, `w` reflects whether the
winning banner was emitted, and the secret is the real drawn secret —
but the dict has no `guesses` field, so the history itself is not part
of the result. -/
theorem round_result_c6 (key : String) (secret : Int) (clock : Nat → ℚ)
    (guessAt : Nat → Int) (fuel : Nat) (evs : List Event) (r : PyDict)
    (hrun : play_round key secret clock guessAt fuel = some (evs, some r)) :
    ∃ w : Bool,
      r = resultDict w (evs.countP isGuessEv) secret ∧
      (w = true ↔ Event.correct ∈ evs) ∧
      r.lookup "win" = some (PyVal.bool w) ∧
      r.lookup "attempts" = some (PyVal.int (evs.countP isGuessEv)) ∧
      r.lookup "secret" = some (PyVal.int secret) ∧
      r.lookup "guesses" = none := by
  unfold play_round at hrun
  cases hcfg : DIFFICULTIES key with
  | none =>
    rw [hcfg] at hrun
    simp at hrun
  | some cfg =>
    rw [hcfg] at hrun
    rw [Option.map_some', Option.some.injEq] at hrun
    obtain ⟨w, hr, hiff⟩ :=
      round_loop_result cfg secret clock guessAt fuel cfg.attempts [] evs r hrun
    refine ⟨w, by simpa using hr, hiff, ?_, ?_, ?_, ?_⟩ <;>
      rw [show r = resultDict w (evs.countP isGuessEv) secret from by simpa using hr] <;>
      simp [resultDict, List.lookup]

/-- Witness for C6 on the immediate-timeout run. -/
theorem round_result_c6_witness :
    ∃ w : Bool,
      resultDict false 0 5 =
        resultDict w (List.countP isGuessEv [Event.timeUp]) 5 ∧
      (w = true ↔ Event.correct ∈ [Event.timeUp]) ∧
      (resultDict false 0 5).lookup "win" = some (PyVal.bool w) ∧
      (resultDict false 0 5).lookup "attempts" =
        some (PyVal.int (List.countP isGuessEv [Event.timeUp])) ∧
      (resultDict false 0 5).lookup "secret" = some (PyVal.int 5) ∧
      (resultDict false 0 5).lookup "guesses" = none :=
  round_result_c6 "timed" 5 (fun _ => 21) (fun _ => 1) 1 [Event.timeUp]
    (resultDict false 0 5) timeout_run

/-- C7: in every round the half-of-range tip appears at most once in
the trace; it appears exactly when at least three guesses are recorded
and the third guess is not the secret; and it always reveals whether
the secret lies at or below `floor((min + max) / 2)` of the original
range. -/
theorem round_tip_c7 (key : String) (cfg : Cfg) (secret : Int) (clock : Nat → ℚ)
    (guessAt : Nat → Int) (fuel : Nat) (evs : List Event) (res : Option PyDict)
    (hcfg : DIFFICULTIES key = some cfg)
    (hrun : play_round key secret clock guessAt fuel = some (evs, res)) :
    evs.countP isTipEv ≤ 1 ∧
    (evs.countP isTipEv = 1 ↔ 3 ≤ evs.countP isGuessEv ∧ guessAt 2 ≠ secret) ∧
    (∀ half lo hi, Event.tip half lo hi ∈ evs →
      lo = cfg.min ∧ hi = cfg.max ∧
      half = (if secret ≤ (cfg.min + cfg.max).fdiv 2 then "lower" else "upper")) := by
  unfold play_round at hrun
  rw [hcfg, Option.map_some', Option.some.injEq] at hrun
  obtain ⟨hb, hiff, hmem⟩ := round_loop_tips cfg secret clock guessAt fuel cfg.attempts []
  rw [hrun] at hb hiff hmem
  dsimp only at hb hiff hmem
  refine ⟨hb, ?_, hmem⟩
  rw [hiff]
  simp

/-- Witness for C7 on the immediate-timeout run: no guess was recorded
and no tip was emitted. -/
theorem round_tip_c7_witness :
    List.countP isTipEv [Event.timeUp] ≤ 1 ∧
    (List.countP isTipEv [Event.timeUp] = 1 ↔
      3 ≤ List.countP isGuessEv [Event.timeUp] ∧ (fun _ : Nat => (1 : Int)) 2 ≠ 5) ∧
    (∀ half lo hi, Event.tip half lo hi ∈ [Event.timeUp] →
      lo = (⟨1, 500, none, some 20⟩ : Cfg).min ∧ hi = (⟨1, 500, none, some 20⟩ : Cfg).max ∧
      half = (if (5 : Int) ≤ ((⟨1, 500, none, some 20⟩ : Cfg).min +
          (⟨1, 500, none, some 20⟩ : Cfg).max).fdiv 2 then "lower" else "upper")) :=
  round_tip_c7 "timed" ⟨1, 500, none, some 20⟩ 5 (fun _ => 21) (fun _ => 1) 1
    [Event.timeUp] (some (resultDict false 0 5)) rfl timeout_run

/-- C1: for every round result and difficulty key among easy, medium,
hard and timed, `compute_score` returns `0` when the result is not won,
and on a win returns `max(10, base + max(0, 50 - attempts * 5))` with
base 50/120/300/200 respectively; the value is a non-negative integer. -/
theorem compute_score_c1 (w : Bool) (a : Nat) (s : Int) (key : String)
    (hkey : key ∈ ["easy", "medium", "hard", "timed"]) :
    ∃ v : Int, compute_score (resultDict w a s) key = some v ∧
      0 ≤ v ∧
      (w = false → v = 0) ∧
      (w = true →
        v = max 10 ((if key = "easy" then 50 else if key = "medium" then 120
          else if key = "hard" then 300 else 200) + max 0 (50 - (a : Int) * 5))) := by
  simp only [List.mem_cons, List.not_mem_nil, or_false] at hkey
  rcases hkey with rfl | rfl | rfl | rfl <;> cases w <;>
    simp [compute_score, resultDict, score_base, truthy, asInt, List.lookup] <;>
    omega

/-- Witness for C1 at the spec's own example: an easy win in 3 attempts
scores 85. -/
theorem compute_score_c1_witness : compute_score (resultDict true 3 27) "easy" = some 85 := by
  obtain ⟨v, hv, -, -, hw⟩ := compute_score_c1 true 3 27 "easy" (by decide)
  rw [hv, hw rfl]
  decide

/-- C10: on every won result the computed score equals the unclamped
`base + max(0, 50 - attempts * 5)`, is at least the base and hence at
least 50, so the `max 10` lower clamp never changes the result. -/
theorem compute_score_c10 (a : Nat) (s : Int) (key : String)
    (hkey : key ∈ ["easy", "medium", "hard", "timed"]) :
    ∃ base v : Int, score_base key = some base ∧ 50 ≤ base ∧
      compute_score (resultDict true a s) key = some v ∧
      v = base + max 0 (50 - (a : Int) * 5) ∧ base ≤ v ∧ 50 ≤ v := by
  simp only [List.mem_cons, List.not_mem_nil, or_false] at hkey
  rcases hkey with rfl | rfl | rfl | rfl
  · exact ⟨50, max 10 (50 + max 0 (50 - (a : Int) * 5)), rfl, by norm_num, rfl,
      by omega, by omega, by omega⟩
  · exact ⟨120, max 10 (120 + max 0 (50 - (a : Int) * 5)), rfl, by norm_num, rfl,
      by omega, by omega, by omega⟩
  · exact ⟨300, max 10 (300 + max 0 (50 - (a : Int) * 5)), rfl, by norm_num, rfl,
      by omega, by omega, by omega⟩
  · exact ⟨200, max 10 (200 + max 0 (50 - (a : Int) * 5)), rfl, by norm_num, rfl,
      by omega, by omega, by omega⟩

/-- Witness for C10: a hard-mode win with 0 attempts recorded scores
`300 + 50 = 350`, untouched by the clamp. -/
theorem compute_score_c10_witness : compute_score (resultDict true 0 5) "hard" = some 350 := by
  obtain ⟨base, v, hb, -, hv, hval, -, -⟩ := compute_score_c10 0 5 "hard" (by decide)
  rw [hv, hval]
  have : base = 300 := by
    have := hb
    simp [score_base] at this
    omega
  rw [this]
  decide

/-- Counterexample to C4 as stated: at `secret = 0`, `guess = 2` the
code's threshold is `max(1, 2) = 2` (the `if secret else 2` special
case), so the code says "extremely close" while the claim's rule chain
`max(1, secret * 0.02) = 1` falls through to "very close". -/
theorem give_hint_c4_counterexample :
    closeness 0 2 = "You\x27re extremely close!" ∧
    spec_closeness 0 2 = "Very close." ∧
    closeness 0 2 ≠ spec_closeness 0 2 := by
  have h1 : closeness 0 2 = "You\x27re extremely close!" := by
    norm_num [closeness, max_def]
  have h2 : spec_closeness 0 2 = "Very close." := by
    norm_num [spec_closeness, max_def]
  refine ⟨h1, h2, ?_⟩
  rw [h1, h2]
  decide

/-- C4 amended: for every nonzero secret the closeness phrase follows
exactly the claim's first-match rule chain with threshold
`max(1, secret * 0.02)`; for every wrong guess the hint is the
closeness phrase followed by "try higher" when `guess < secret` and
"try lower" otherwise (plus the digit sub-hint); an exact guess
returns the "Correct!" indicator. -/
theorem give_hint_c4 (secret guess : Int) (a : Nat) (m : Int)
    (hne : guess ≠ secret) :
    (secret ≠ 0 → closeness secret guess = spec_closeness secret guess) ∧
    give_hint secret guess a m =
      closeness secret guess ++ " Try " ++
        (if guess < secret then "higher" else "lower") ++ "." ++
        digit_hint secret guess ∧
    give_hint secret secret a m = "Correct!" := by
  refine ⟨fun h0 => ?_, ?_, ?_⟩
  · unfold closeness spec_closeness
    rw [if_pos h0]
  · have habs : |secret - guess| ≠ 0 := by
      simp [sub_eq_zero]
      exact fun h => hne h.symm
    simp [give_hint, direction, habs]
  · simp [give_hint]

/-- Witness for C4 at `secret = 1000`, `guess = 985`: the threshold is
`max(1, 20) = 20 ≥ 15`, so the hint is in the "extremely close" tier
and points higher. -/
theorem give_hint_c4_witness :
    closeness 1000 985 = spec_closeness 1000 985 ∧
    give_hint 1000 985 1 10 =
      closeness 1000 985 ++ " Try " ++ "higher" ++ "." ++ digit_hint 1000 985 := by
  obtain ⟨h1, h2, -⟩ := give_hint_c4 1000 985 1 10 (by decide)
  refine ⟨h1 (by decide), ?_⟩
  rw [h2]
  norm_num

/-- C5: the digit sub-hint is nonempty exactly when both numbers are
below 10000 and at least one right-aligned digit position matches; the
match count never exceeds the length of the shorter decimal
representation; and `secret = 104`, `guess = 204` give exactly 2
matches. -/
theorem digit_hint_c5 (secret guess : Int) :
    (digit_hint secret guess ≠ "" ↔
      secret < 10000 ∧ guess < 10000 ∧ 0 < digit_matches secret guess) ∧
    digit_matches secret guess ≤ min (revStr secret).length (revStr guess).length ∧
    digit_matches 104 204 = 2 := by
  refine ⟨?_, ?_, by decide⟩
  · constructor
    · intro h
      unfold digit_hint at h
      split at h
      · rename_i hlt
        split at h
        · rename_i hm
          exact ⟨hlt.1, hlt.2, Nat.pos_of_ne_zero hm⟩
        · exact absurd rfl h
      · exact absurd rfl h
    · rintro ⟨h1, h2, h3⟩
      unfold digit_hint
      rw [if_pos ⟨h1, h2⟩, if_pos (Nat.pos_iff_ne_zero.mp h3)]
      intro hcon
      have hd : (" (Digits from right matched: " ++
          toString (digit_matches secret guess) ++ ")").data = [] := by
        rw [hcon]
      rw [String.data_append, String.data_append] at hd
      exact absurd (List.append_eq_nil.mp (List.append_eq_nil.mp hd).1).1 (by decide)
  · calc digit_matches secret guess
        ≤ ((revStr secret).zip (revStr guess)).length := List.countP_le_length _
      _ = min (revStr secret).length (revStr guess).length := List.length_zip _ _

end NumberDuel
